import Mathlib

/-!
Shallow embedding of the MongoDB storage adapter of the Chatterbot
repository (src/chatterbot/storage/mongodb.py), together with theorems
settling the frozen claims about it.

The embedding models:
* BSON-like field values (`MVal`), documents (`Doc`) as association
  lists mirroring Python dicts, and the subset of MongoDB query
  operators the adapter emits (`Cond`, `matchesDoc`).
* The `Statement` entity.  The `Statement` class itself lives in
  `chatterbot/conversation.py`, which is not part of the provided
  sources; its serialization and construction are modelled from the
  spec (sections 3, 4.1 and 6), see `Statement.serialize` and
  `mongo_to_object`.
* The adapter operations `count`, `filter`, `update`, `get_random`,
  `remove` and `get_response_statements`, each translated clause by
  clause from `MongoDatabaseAdapter`.
* A small Python heap (dicts and lists with object identity) on which
  the `Query` class is embedded, so that the shallow-copy sharing of
  the nested exclusion list in `statement_text_not_in` is visible.
-/

/-- Field values stored in a MongoDB document.  The adapter only ever
stores strings, nulls (Python `None`) and timestamps; timestamps are
modelled as naturals ordered like `datetime` values. -/
inductive MVal where
  | null : MVal
  | nat : Nat → MVal
  | str : String → MVal
deriving DecidableEq, Repr

/-- A MongoDB document: an association list from field names to values,
mirroring a Python dict (no duplicate keys arise from dict operations;
lookups return the first binding). -/
abbrev Doc := List (String × MVal)

/-- Lookup of a key in an association list (Python `d[k]` / `k in d`),
returning the first binding. -/
def alookup {β : Type} (d : List (String × β)) (k : String) : Option β :=
  match d with
  | [] => none
  | (k', v) :: rest => if k' = k then some v else alookup rest k

/-- Setting a key in an association list (Python `d[k] = v`): the first
existing binding is replaced in place, otherwise the binding is
appended, as Python dicts preserve insertion order. -/
def aset {β : Type} (d : List (String × β)) (k : String) (v : β) :
    List (String × β) :=
  match d with
  | [] => [(k, v)]
  | (k', v') :: rest =>
      if k' = k then (k, v) :: rest else (k', v') :: aset rest k v

/-- Key list of an association list. -/
def akeys {β : Type} (d : List (String × β)) : List String :=
  d.map Prod.fst

/-- The query conditions the adapter emits: exact match, MongoDB `$ne`,
`$in` and `$nin`. -/
inductive Cond where
  | ceq : MVal → Cond
  | cne : MVal → Cond
  | cin : List MVal → Cond
  | cnin : List MVal → Cond
deriving DecidableEq, Repr

/-- A MongoDB query document as emitted by the adapter: field name to
condition. -/
abbrev MongoQuery := List (String × Cond)

/-- MongoDB matching of one condition against an optional field value.
A missing field compares as null for `$eq`, `$ne` and `$in`; `$nin`
matches documents that lack the field. -/
def condMatch (c : Cond) (fv : Option MVal) : Bool :=
  match c with
  | .ceq v => fv.getD .null = v
  | .cne v => ¬ (fv.getD .null = v)
  | .cin vs => (fv.getD .null) ∈ vs
  | .cnin vs =>
      match fv with
      | none => true
      | some v => ¬ v ∈ vs

/-- A document matches a query when every field condition holds. -/
def matchesDoc (q : MongoQuery) (d : Doc) : Bool :=
  q.all fun kc => condMatch kc.2 (alookup d kc.1)

/-- The query `{'text': t}` used by `update`, `remove` and callers of
`filter`. -/
def textQ (t : String) : MongoQuery :=
  [("text", Cond.ceq (MVal.str t))]

/-- Whether a document's `text` field equals `t`. -/
def textMatches (d : Doc) (t : String) : Bool :=
  matchesDoc (textQ t) d

/-- Number of stored documents whose `text` equals `t`. -/
def textCount (store : List Doc) (t : String) : Nat :=
  (store.filter fun d => textMatches d t).length

/-- The Statement entity.  Modelled from the spec: the class lives in
`chatterbot/conversation.py` (not under the provided sources); per spec
section 3 it carries `text`, an optional `in_response_to`, a
`created_at` timestamp, arbitrary extra fields, and a transient
`confidence` that is never persisted (`confidence` is a float in the
source; only its exclusion from persistence matters here, so its type
is irrelevant and a natural is used). -/
structure Statement where
  text : String
  in_response_to : Option String
  created_at : Nat
  extras : Doc
  confidence : Nat
deriving DecidableEq, Repr

/-- Conversion of the optional reply link to a stored field value. -/
def optStr : Option String → MVal
  | none => MVal.null
  | some s => MVal.str s

/-- Modelled from the spec: `Statement.serialize` produces the persisted
record shape of section 6, `{text, in_response_to, created_at, ...extra
fields}`, excluding `confidence`. -/
def Statement.serialize (s : Statement) : Doc :=
  ("text", MVal.str s.text) ::
  ("in_response_to", optStr s.in_response_to) ::
  ("created_at", MVal.nat s.created_at) :: s.extras

/-- The field names with dedicated `Statement` attributes. -/
def knownKey (k : String) : Bool :=
  k = "text" ∨ k = "in_response_to" ∨ k = "created_at"

/-- Modelled from the spec: `mongo_to_object` builds
`Statement(**statement_data)` from a stored document; per spec section 3
`confidence` "must be reset/ignored on every read from storage", so it
is zero on every deserialized statement. -/
def mongo_to_object (d : Doc) : Statement where
  text :=
    match alookup d "text" with
    | some (MVal.str s) => s
    | _ => ""
  in_response_to :=
    match alookup d "in_response_to" with
    | some (MVal.str s) => some s
    | _ => none
  created_at :=
    match alookup d "created_at" with
    | some (MVal.nat n) => n
    | _ => 0
  extras := d.filter fun kv => ! knownKey kv.1
  confidence := 0

/-- One association list is covered by another: every key it binds has
the same lookup in both. -/
def docSubB (d1 d2 : Doc) : Bool :=
  d1.all fun kv => alookup d2 kv.1 = alookup d1 kv.1

/-- Statement equality "except confidence": the persisted attributes
agree and the extra fields are lookup-equal (the backend-assigned id is
opaque to callers per spec section 3 and not compared). -/
def sameExceptConfidence (a b : Statement) : Bool :=
  a.text = b.text ∧ a.in_response_to = b.in_response_to ∧
  a.created_at = b.created_at ∧
  docSubB a.extras b.extras ∧ docSubB b.extras a.extras

/-- Well-formedness of a statement as produced by the Python class: the
extra-field dict cannot rebind the dedicated attributes and, being a
dict, has no duplicate keys. -/
def wfStatement (s : Statement) : Prop :=
  (∀ kv ∈ s.extras, knownKey kv.1 = false) ∧ (akeys s.extras).Nodup

instance (s : Statement) : Decidable (wfStatement s) := by
  unfold wfStatement; infer_instance

/-! ### Update (upsert) -/

/-- MongoDB `$set`: each field of `data` is written into the document,
other fields are left in place. -/
def applySet (d : Doc) (data : Doc) : Doc :=
  data.foldl (fun acc kv => aset acc kv.1 kv.2) d

/-- Equality fields of a query, used by MongoDB to seed the document
inserted by an upsert that matched nothing. -/
def eqFields (q : MongoQuery) : Doc :=
  q.filterMap fun kc =>
    match kc.2 with
    | Cond.ceq v => some (kc.1, v)
    | _ => none

/-- MongoDB `UpdateOne(filter, {'$set': data}, upsert=True)`: the first
matching document receives the `$set`, and when nothing matches a new
document built from the filter's equality fields plus the `$set` fields
is inserted. -/
def updateOneUpsert (filt : MongoQuery) (data : Doc) :
    List Doc → List Doc
  | [] => [applySet (eqFields filt) data]
  | d :: ds =>
      if matchesDoc filt d then applySet d data :: ds
      else d :: updateOneUpsert filt data ds

/-- The single bulk-write operation issued by
`MongoDatabaseAdapter.update`: an upsert keyed by `{'text':
statement.text}` setting the serialized statement. -/
def mongoUpdate (store : List Doc) (s : Statement) : List Doc :=
  updateOneUpsert (textQ s.text) s.serialize store

/-- Result of `MongoDatabaseAdapter.update`: the store after the bulk
write, the error-log lines produced, and the returned statement. -/
structure UpdateResult where
  store : List Doc
  log : List String
  ret : Statement
deriving DecidableEq, Repr

/-- The `update` method with the behaviour of the backend bulk write
injected: `none` means the bulk write succeeded, `some (details,
partialStore)` means it raised `BulkWriteError` carrying `details`
after leaving the collection in `partialStore`.  The source catches
exactly that error, logs `str(bwe.details)` and still returns the
statement. -/
def updateOp (store : List Doc) (s : Statement)
    (bulkFailure : Option (String × List Doc)) : UpdateResult :=
  match bulkFailure with
  | none => ⟨mongoUpdate store s, [], s⟩
  | some (details, partialStore) => ⟨partialStore, [details], s⟩

/-! ### Sorting and filter -/

/-- Sort direction of one MongoDB sort key (`pymongo.ASCENDING` /
`pymongo.DESCENDING`). -/
inductive SortDir where
  | asc : SortDir
  | desc : SortDir
deriving DecidableEq, Repr

/-- Three-way comparison of naturals. -/
def natCmp (x y : Nat) : Ordering :=
  if x < y then .lt else if y < x then .gt else .eq

/-- Three-way comparison of strings under the lexicographic order. -/
def strCmp (x y : String) : Ordering :=
  if x < y then .lt else if y < x then .gt else .eq

/-- BSON type rank: null sorts before numbers, numbers before
strings. -/
def mvalRank : MVal → Nat
  | .null => 0
  | .nat _ => 1
  | .str _ => 2

/-- BSON comparison of two field values: by type rank, then by value
within a type. -/
def mvalCmp (a b : MVal) : Ordering :=
  match a, b with
  | .null, .null => .eq
  | .nat x, .nat y => natCmp x y
  | .str x, .str y => strCmp x y
  | _, _ => natCmp (mvalRank a) (mvalRank b)

/-- Comparison of two documents on one sort key; a missing field sorts
as null, and a descending key reverses the comparison. -/
def fieldCmp (k : String) (dir : SortDir) (a b : Doc) : Ordering :=
  let c := mvalCmp ((alookup a k).getD .null) ((alookup b k).getD .null)
  match dir with
  | .asc => c
  | .desc => c.swap

/-- Lexicographic comparison of two documents over a sort
specification. -/
def docCmp (spec : List (String × SortDir)) (a b : Doc) : Ordering :=
  match spec with
  | [] => .eq
  | (k, dir) :: rest =>
      match fieldCmp k dir a b with
      | .eq => docCmp rest a b
      | c => c

/-- The "sorts no later than" relation induced by a sort
specification. -/
def docLe (spec : List (String × SortDir)) (a b : Doc) : Prop :=
  docCmp spec a b ≠ .gt

instance (spec : List (String × SortDir)) : DecidableRel (docLe spec) := by
  unfold docLe; infer_instance

/-- The engine's sort of the matching documents, modelled as a stable
sort by the lexicographic comparison. -/
def sortDocs (spec : List (String × SortDir)) (l : List Doc) : List Doc :=
  List.insertionSort (docLe spec) l

/-- Translation of an `order_by` list into the `pymongo` sort
specification, lines 120-131 of the source: when `'created_at'` occurs
it is removed from the list (in place, hence the second component: the
list object the caller passed, as left after the call) and emitted
first with descending direction; the remaining fields follow in order,
ascending. -/
def buildOrdering (order_by : List String) :
    List (String × SortDir) × List String :=
  if "created_at" ∈ order_by then
    let rest := order_by.erase "created_at"
    (("created_at", SortDir.desc) :: rest.map (fun f => (f, SortDir.asc)),
      rest)
  else
    (order_by.map (fun f => (f, SortDir.asc)), order_by)

/-- Observable effect of `Query.raw` on the value level: the receiver's
bindings with `data` merged on top, conflicting keys overwritten
(`dict.update`). -/
def rawMergeQ (base : MongoQuery) (data : MongoQuery) : MongoQuery :=
  data.foldl (fun acc kc => aset acc kc.1 kc.2) base

/-- `MongoDatabaseAdapter.filter`: merges the keyword constraints into
the adapter's base query, finds the matching documents, applies the
special-cased ordering, and deserializes.  The second component is the
content of the caller's `order_by` list object after the call (`none`
when no list was passed): `order_by.remove('created_at')` mutates it in
place. -/
def mongoFilter (store : List Doc) (base : MongoQuery)
    (kwargs : MongoQuery) (order_by : Option (List String)) :
    List Statement × Option (List String) :=
  let q := rawMergeQ base kwargs
  let found := store.filter fun d => matchesDoc q d
  match order_by with
  | none => (found.map mongo_to_object, none)
  | some ob =>
      if ob.isEmpty then
        -- an empty list is falsy: no sort and no mutation
        (found.map mongo_to_object, some ob)
      else
        let so := buildOrdering ob
        ((sortDocs so.1 found).map mongo_to_object, some so.2)

/-! ### get_random, remove, get_response_statements -/

/-- Failures surfaced by the adapter: the empty-database error raised
by `get_random` (named `EmptyStorageError` in the spec), and the
Python `IndexError` that `list(...)[0]` would raise on an empty
cursor. -/
inductive StorageError where
  | emptyDatabase : StorageError
  | indexError : StorageError
deriving DecidableEq, Repr

/-- `MongoDatabaseAdapter.get_random`, with the integer produced by
`random.randint(0, count - 1)` passed explicitly: `randint` draws
uniformly from the inclusive range `0 .. count - 1`, so every `k` with
`k < count` is drawn with equal probability.  The cursor
`find().limit(1).skip(k)` yields the document at offset `k`. -/
def get_random (store : List Doc) (k : Nat) : Except StorageError Statement :=
  if store.length < 1 then
    Except.error StorageError.emptyDatabase
  else
    match (store.drop k).head? with
    | some d => Except.ok (mongo_to_object d)
    | none => Except.error StorageError.indexError

/-- `MongoDatabaseAdapter.remove`: `delete_one({'text': t})` deletes
the first document whose `text` equals `t` and is a no-op (raising
nothing) when no document matches. -/
def mongoRemove (store : List Doc) (t : String) : List Doc :=
  match store with
  | [] => []
  | d :: ds => if textMatches d t then ds else d :: mongoRemove ds t

/-- Stage one of `get_response_statements`: the `in_response_to` values
of all stored documents where that field is present and non-null
(`{'in_response_to': {'$ne': None}}`). -/
def respValues (store : List Doc) : List MVal :=
  (store.filter fun d =>
      matchesDoc [("in_response_to", Cond.cne MVal.null)] d).filterMap
    fun r => alookup r "in_response_to"

/-- `MongoDatabaseAdapter.get_response_statements`: collect the
non-null `in_response_to` values, then return the statements whose
`text` is `$in` that set, with the base query's bindings merged on top
(`_statement_query.update(self.base_query.value())`). -/
def get_response_statements (store : List Doc) (base : MongoQuery) :
    List Statement :=
  let q := rawMergeQ [("text", Cond.cin (respValues store))] base
  (store.filter fun d => matchesDoc q d).map mongo_to_object

/-! ### The Query class on a Python heap

The `Query` builder operates on Python dicts.  `dict.copy()` is
shallow, so nested dicts and lists stay shared between the copy and
the original; to express that sharing the class is embedded over an
explicit heap of dict objects and list objects addressed by
reference. -/

/-- A Python value as it occurs inside a query dict: a string, a
reference to a dict object, or a reference to a list object. -/
inductive PyVal where
  | str : String → PyVal
  | dref : Nat → PyVal
  | lref : Nat → PyVal
deriving DecidableEq, Repr

/-- Content of one Python dict object. -/
abbrev PyDict := List (String × PyVal)

/-- A heap of Python dict and list objects; a `dref i` / `lref i`
points at index `i` of the corresponding store. -/
structure Heap where
  dicts : List PyDict
  lists : List (List PyVal)
deriving DecidableEq, Repr

/-- Dereference a dict object. -/
def Heap.getDict (h : Heap) (r : Nat) : Option PyDict :=
  h.dicts[r]?

/-- Dereference a list object. -/
def Heap.getList (h : Heap) (r : Nat) : Option (List PyVal) :=
  h.lists[r]?

/-- Allocate a fresh dict object with the given content. -/
def Heap.allocDict (h : Heap) (d : PyDict) : Heap × Nat :=
  (⟨h.dicts ++ [d], h.lists⟩, h.dicts.length)

/-- Allocate a fresh list object with the given content. -/
def Heap.allocList (h : Heap) (l : List PyVal) : Heap × Nat :=
  (⟨h.dicts, h.lists ++ [l]⟩, h.lists.length)

/-- Overwrite the content of a dict object (in-place mutation). -/
def Heap.setDict (h : Heap) (r : Nat) (d : PyDict) : Heap :=
  ⟨h.dicts.set r d, h.lists⟩

/-- Overwrite the content of a list object (in-place mutation). -/
def Heap.setList (h : Heap) (r : Nat) (l : List PyVal) : Heap :=
  ⟨h.dicts, h.lists.set r l⟩

/-- `Query.__init__` with no argument; the mutable default dict that
Python shares between such calls is never mutated anywhere in the
module, so allocating a fresh empty dict is observationally
equivalent. -/
def queryInit (h : Heap) : Heap × Nat :=
  h.allocDict []

/-- `Query.raw(data)`: shallow-copy the receiver's dict, merge `data`
on top (`dict.update`), and return the new dict as the derived query's
state.  Fails (`none`) only on a dangling receiver reference. -/
def queryRaw (h : Heap) (q : Nat) (data : PyDict) : Option (Heap × Nat) :=
  match h.getDict q with
  | none => none
  | some d =>
      let a := h.allocDict d
      some (a.1.setDict a.2 (data.foldl (fun acc kv => aset acc kv.1 kv.2) d),
        a.2)

/-- `Query.statement_text_equals(t)`: shallow-copy the receiver's dict
and bind `'text'` to the string in the copy. -/
def queryTextEquals (h : Heap) (q : Nat) (t : String) :
    Option (Heap × Nat) :=
  match h.getDict q with
  | none => none
  | some d =>
      let a := h.allocDict d
      some (a.1.setDict a.2 (aset d "text" (PyVal.str t)), a.2)

/-- `Query.statement_text_not_in(stmts)`, translated line by line:
shallow-copy the receiver's dict; if `'text'` is absent bind it to a
fresh empty dict; if `'$nin'` is absent in the `'text'` dict bind it to
a fresh empty list; then `extend` that list with `stmts` — an in-place
mutation of a list object that the shallow copy may share with the
receiver.  `none` models the `TypeError` Python raises when `'text'`
is bound to a non-dict (and dangling references). -/
def queryTextNotIn (h : Heap) (q : Nat) (stmts : List String) :
    Option (Heap × Nat) :=
  match h.getDict q with
  | none => none
  | some d =>
      -- query = self.query.copy()
      let a1 := h.allocDict d
      -- if 'text' not in query: query['text'] = {}
      let p2 : Heap × PyDict :=
        if (alookup d "text").isSome then (a1.1, d)
        else
          let a2 := a1.1.allocDict []
          let d2 := aset d "text" (PyVal.dref a2.2)
          (a2.1.setDict a1.2 d2, d2)
      match alookup p2.2 "text" with
      | some (PyVal.dref ir) =>
          (match p2.1.getDict ir with
           | none => none
           | some idr =>
               -- if '$nin' not in query['text']: query['text']['$nin'] = []
               let p3 : Heap × PyDict :=
                 if (alookup idr "$nin").isSome then (p2.1, idr)
                 else
                   let a3 := p2.1.allocList []
                   let idr2 := aset idr "$nin" (PyVal.lref a3.2)
                   (a3.1.setDict ir idr2, idr2)
               match alookup p3.2 "$nin" with
               | some (PyVal.lref lr) =>
                   (match p3.1.getList lr with
                    | none => none
                    | some l =>
                        -- query['text']['$nin'].extend(statements)
                        some (p3.1.setList lr (l ++ stmts.map PyVal.str),
                          a1.2))
               | _ => none)
      | _ => none

/-- Observable exclusion list of a query object: the content of the
list bound to `'$nin'` inside the dict bound to `'text'`, as
`Query.value()` exposes it. -/
def queryNin (h : Heap) (q : Nat) : Option (List PyVal) :=
  match h.getDict q with
  | none => none
  | some d =>
      match alookup d "text" with
      | some (PyVal.dref ir) =>
          (match h.getDict ir with
           | none => none
           | some idr =>
               match alookup idr "$nin" with
               | some (PyVal.lref lr) => h.getList lr
               | _ => none)
      | _ => none

/-- Current exclusion state of a query object as
`statement_text_not_in` finds it: `some l` when the operation would
succeed with `l` the exclusions already present (`[]` when the `'text'`
key or the `'$nin'` key is still absent), `none` when the operation
would raise. -/
def curNin (h : Heap) (q : Nat) : Option (List PyVal) :=
  match h.getDict q with
  | none => none
  | some d =>
      match alookup d "text" with
      | none => some []
      | some (PyVal.dref ir) =>
          (match h.getDict ir with
           | none => none
           | some idr =>
               match alookup idr "$nin" with
               | none => some []
               | some (PyVal.lref lr) => h.getList lr
               | some _ => none)
      | some _ => none

/-- The `created_at` value of a document, as the engine's sort sees
it (missing sorts as null). -/
def createdVal (d : Doc) : MVal :=
  (alookup d "created_at").getD MVal.null

/-- The "sorts no later than" relation on field values. -/
def mvalLe (a b : MVal) : Prop :=
  mvalCmp a b ≠ .gt

/-! ### Association-list lemmas -/

theorem alookup_cons {β : Type} (k' : String) (v : β) (rest : List (String × β))
    (k : String) :
    alookup ((k', v) :: rest) k = if k' = k then some v else alookup rest k :=
  rfl

theorem alookup_nil {β : Type} (k : String) :
    alookup ([] : List (String × β)) k = none := rfl

theorem alookup_aset_self {β : Type} (d : List (String × β)) (k : String)
    (v : β) : alookup (aset d k v) k = some v := by
  induction d with
  | nil => simp [aset, alookup]
  | cons kv rest ih =>
      obtain ⟨k', v'⟩ := kv
      by_cases h : k' = k
      · simp [aset, h, alookup]
      · simp [aset, h, alookup, ih]

theorem alookup_aset_ne {β : Type} (d : List (String × β)) {k k' : String}
    (v : β) (hne : k' ≠ k) : alookup (aset d k v) k' = alookup d k' := by
  induction d with
  | nil => simp [aset, alookup, Ne.symm hne]
  | cons kv rest ih =>
      obtain ⟨k0, v0⟩ := kv
      by_cases h : k0 = k
      · subst h
        simp [aset, alookup, Ne.symm hne]
      · simp only [aset, if_neg h, alookup_cons, ih]

theorem mem_akeys_iff {β : Type} (d : List (String × β)) (k : String) :
    k ∈ akeys d ↔ (alookup d k).isSome := by
  induction d with
  | nil => simp [akeys, alookup]
  | cons kv rest ih =>
      obtain ⟨k', v'⟩ := kv
      have hk : akeys ((k', v') :: rest) = k' :: akeys rest := rfl
      by_cases h : k' = k
      · subst h; simp [hk, alookup]
      · rw [hk, List.mem_cons, alookup_cons, if_neg h, ← ih]
        simp [Ne.symm h]

theorem alookup_eq_none_iff {β : Type} (d : List (String × β)) (k : String) :
    alookup d k = none ↔ k ∉ akeys d := by
  rw [mem_akeys_iff]
  cases alookup d k <;> simp

theorem aset_of_not_mem {β : Type} {d : List (String × β)} {k : String}
    (v : β) (h : k ∉ akeys d) : aset d k v = d ++ [(k, v)] := by
  induction d with
  | nil => simp [aset]
  | cons kv rest ih =>
      obtain ⟨k', v'⟩ := kv
      have hk : akeys ((k', v') :: rest) = k' :: akeys rest := rfl
      rw [hk, List.mem_cons, not_or] at h
      have hne : ¬ k' = k := fun e => h.1 e.symm
      simp only [aset, if_neg hne, List.cons_append, ih h.2]

theorem foldl_aset_of_disjoint {β : Type} (data : List (String × β)) :
    ∀ acc : List (String × β), (∀ kv ∈ data, kv.1 ∉ akeys acc) →
    (akeys data).Nodup →
    data.foldl (fun a kv => aset a kv.1 kv.2) acc = acc ++ data := by
  induction data with
  | nil => intro acc _ _; simp
  | cons kv rest ih =>
      intro acc hd hnd
      simp only [akeys, List.map_cons, List.nodup_cons] at hnd
      simp only [List.foldl_cons]
      rw [aset_of_not_mem kv.2 (hd kv (by simp))]
      rw [ih (acc ++ [(kv.1, kv.2)]) ?_ (by simpa [akeys] using hnd.2)]
      · simp
      · intro kv' hkv'
        simp only [akeys, List.map_append, List.mem_append, List.map_cons]
        push_neg
        refine ⟨?_, ?_⟩
        · exact hd kv' (by simp [hkv'])
        · simp only [List.map_nil, List.mem_singleton]
          intro hEq
          exact hnd.1 (hEq ▸ (List.mem_map.mpr ⟨kv', hkv', rfl⟩))

theorem alookup_append {β : Type} (d1 d2 : List (String × β)) (k : String) :
    alookup (d1 ++ d2) k = (alookup d1 k).or (alookup d2 k) := by
  induction d1 with
  | nil => simp [alookup]
  | cons kv rest ih =>
      obtain ⟨k', v'⟩ := kv
      by_cases h : k' = k <;> simp [alookup, h, ih]

theorem alookup_foldl_aset {β : Type} (data : List (String × β)) :
    ∀ (acc : List (String × β)) (k : String), (akeys data).Nodup →
    alookup (data.foldl (fun a kv => aset a kv.1 kv.2) acc) k =
      (alookup data k).or (alookup acc k) := by
  induction data with
  | nil => intro acc k _; simp [alookup]
  | cons kv rest ih =>
      intro acc k hnd
      simp only [akeys, List.map_cons, List.nodup_cons] at hnd
      simp only [List.foldl_cons]
      rw [ih _ k (by simpa [akeys] using hnd.2)]
      obtain ⟨k0, v0⟩ := kv
      by_cases h : k0 = k
      · subst h
        have : alookup rest k0 = none :=
          (alookup_eq_none_iff rest k0).mpr (by simpa [akeys] using hnd.1)
        simp [alookup, this, alookup_aset_self]
      · rw [alookup_aset_ne acc v0 (Ne.symm h), alookup_cons, if_neg h]

theorem alookup_applySet (d data : Doc) (k : String)
    (hnd : (akeys data).Nodup) :
    alookup (applySet d data) k = (alookup data k).or (alookup d k) :=
  alookup_foldl_aset data d k hnd

theorem alookup_filterKey (p : String → Bool) (d : Doc) (k : String) :
    alookup (d.filter fun kv => p kv.1) k =
      if p k then alookup d k else none := by
  induction d with
  | nil => simp [alookup]
  | cons kv rest ih =>
      obtain ⟨k', v'⟩ := kv
      by_cases hp : p k'
      · by_cases h : k' = k
        · subst h; simp [List.filter_cons, hp, alookup]
        · simp [List.filter_cons, hp, alookup, h, ih]
      · by_cases h : k' = k
        · subst h
          simp [List.filter_cons, hp, alookup, ih]
        · simp [List.filter_cons, hp, alookup, h, ih]

theorem textCount_cons (d : Doc) (ds : List Doc) (t : String) :
    textCount (d :: ds) t =
      (if textMatches d t then 1 else 0) + textCount ds t := by
  by_cases h : textMatches d t <;>
    [(simp [textCount, List.filter_cons, h]; omega);
     simp [textCount, List.filter_cons, h]]

theorem textCount_eq_zero {ds : List Doc} {t : String} :
    textCount ds t = 0 ↔ ∀ d ∈ ds, textMatches d t = false := by
  simp [textCount, List.length_eq_zero, List.filter_eq_nil_iff]

/-! ### Claim C7 -/

/-- C7: for every statement `s`, `update(s)` never propagates a
batched-write failure: when the bulk write raises `BulkWriteError` the
details are logged (`self.logger.error(str(bwe.details))`) and the
statement is still returned normally; `updateOp` is a total function,
so no exception reaches the caller in either outcome. -/
theorem update_swallows_bulk_write_error (store : List Doc) (s : Statement)
    (f : Option (String × List Doc)) :
    (updateOp store s f).ret = s ∧
    (∀ details partialStore,
      (updateOp store s (some (details, partialStore))).log = [details]) ∧
    (updateOp store s none).store = mongoUpdate store s := by
  refine ⟨?_, fun _ _ => rfl, rfl⟩
  cases f with
  | none => rfl
  | some p => obtain ⟨a, b⟩ := p; rfl

/-! ### Claim C10 -/

/-- C10: `filter` mutates the caller's `order_by` list in place — the
second component of `mongoFilter` is the content of the caller's list
object after the call.  When the list contains `'created_at'`, its
first occurrence has been removed and the list is observably shorter;
when it contained exactly one occurrence, reusing the same list for a
second `filter` call no longer triggers the `created_at` special case:
the second call emits only ascending keys for the remaining fields. -/
theorem filter_mutates_caller_order_by (store : List Doc)
    (base kwargs : MongoQuery) (ob : List String)
    (hmem : "created_at" ∈ ob) :
    (mongoFilter store base kwargs (some ob)).2 =
      some (ob.erase "created_at") ∧
    (ob.erase "created_at").length + 1 = ob.length ∧
    (ob.count "created_at" = 1 →
      "created_at" ∉ ob.erase "created_at" ∧
      buildOrdering (ob.erase "created_at") =
        ((ob.erase "created_at").map fun f => (f, SortDir.asc),
          ob.erase "created_at")) := by
  have hne : ob ≠ [] := List.ne_nil_of_mem hmem
  have hni : ¬ ob.isEmpty := by simp [List.isEmpty_iff, hne]
  refine ⟨?_, ?_, ?_⟩
  · simp [mongoFilter, hni, buildOrdering, hmem]
  · have h1 := List.length_erase_of_mem hmem
    have h2 := List.length_pos_of_mem hmem
    omega
  · intro hcount
    have hnm : "created_at" ∉ ob.erase "created_at" := by
      rw [← List.count_eq_zero, List.count_erase_self]
      omega
    exact ⟨hnm, by simp [buildOrdering, hnm]⟩

/-! ### Claim C6 -/

/-- C6: `get_random` raises the empty-database error exactly when the
count is zero, and on non-empty storage it returns the statement at the
offset drawn by `randint(0, count - 1)`.  Since `randint` is uniform
over `0 .. count - 1` and each offset `k < count` yields exactly the
`k`-th stored statement, every stored statement is selected with equal
probability over the whole dataset. -/
theorem get_random_uniform_selection (store : List Doc) (k : Nat) :
    (get_random store k = Except.error StorageError.emptyDatabase ↔
      store.length = 0) ∧
    ∀ h : k < store.length,
      get_random store k = Except.ok (mongo_to_object store[k]) := by
  constructor
  · by_cases h0 : store.length = 0
    · simp [get_random, h0]
    · have hlt : ¬ store.length < 1 := by omega
      simp only [get_random, if_neg hlt]
      cases hh : (store.drop k).head? <;> simp [h0]
  · intro h
    have hlt : ¬ store.length < 1 := by omega
    have hh : (store.drop k).head? = some store[k] := by
      rw [List.head?_eq_getElem? _, List.getElem?_drop]
      simp [List.getElem?_eq_getElem h]
    simp [get_random, hlt, hh]

/-- Witness for C6 on a one-document store with offset 0. -/
theorem get_random_uniform_selection_witness :
    (0 : Nat) < ([[("text", MVal.str "A")]] : List Doc).length ∧
    get_random [[("text", MVal.str "A")]] 0 =
      Except.ok (mongo_to_object [("text", MVal.str "A")]) :=
  ⟨by decide,
    (get_random_uniform_selection [[("text", MVal.str "A")]] 0).2
      (by decide)⟩

/-! ### Claim C9 -/

/-- C9: `remove(t)` deletes the stored statement whose `text` equals
`t` and is a no-op on a store with no match.  `mongoRemove` is a total
function (so no error is raised either way); it returns the store
unchanged when nothing matches, never invents documents, keeps every
non-matching document, and — under the at-most-one-per-text invariant
the adapter maintains — leaves no document with text `t` behind. -/
theorem remove_deletes_matching_noop_otherwise (store : List Doc)
    (t : String) :
    ((∀ d ∈ store, textMatches d t = false) → mongoRemove store t = store) ∧
    (∀ d ∈ mongoRemove store t, d ∈ store) ∧
    (∀ d ∈ store, textMatches d t = false → d ∈ mongoRemove store t) ∧
    (textCount store t ≤ 1 →
      ∀ d ∈ mongoRemove store t, textMatches d t = false) := by
  induction store with
  | nil => simp [mongoRemove]
  | cons d ds ih =>
      by_cases hm : textMatches d t
      · refine ⟨?_, ?_, ?_, ?_⟩
        · intro hall
          exact absurd (hall d (by simp)) (by simp [hm])
        · intro d' hd'
          simp only [mongoRemove, if_pos hm] at hd'
          exact List.mem_cons_of_mem _ hd'
        · intro d' hd' hf
          simp only [mongoRemove, if_pos hm]
          rcases List.mem_cons.mp hd' with h | h
          · exact absurd (h ▸ hf) (by simp [hm])
          · exact h
        · intro hc d' hd'
          simp only [mongoRemove, if_pos hm] at hd'
          rw [textCount_cons, if_pos hm] at hc
          have : textCount ds t = 0 := by omega
          exact textCount_eq_zero.mp this d' hd'
      · have hrw : mongoRemove (d :: ds) t = d :: mongoRemove ds t := by
          simp [mongoRemove, hm]
        refine ⟨?_, ?_, ?_, ?_⟩
        · intro hall
          rw [hrw, ih.1 fun d' hd' => hall d' (List.mem_cons_of_mem _ hd')]
        · intro d' hd'
          rw [hrw] at hd'
          rcases List.mem_cons.mp hd' with h | h
          · exact h ▸ List.mem_cons_self _ _
          · exact List.mem_cons_of_mem _ (ih.2.1 d' h)
        · intro d' hd' hf
          rw [hrw]
          rcases List.mem_cons.mp hd' with h | h
          · exact h ▸ List.mem_cons_self _ _
          · exact List.mem_cons_of_mem _ (ih.2.2.1 d' h hf)
        · intro hc d' hd'
          rw [textCount_cons, if_neg hm] at hc
          rw [hrw] at hd'
          rcases List.mem_cons.mp hd' with h | h
          · exact h ▸ eq_false_of_ne_true (by simpa using hm)
          · exact ih.2.2.2 (by omega) d' h

/-- Witness for C9: removing an absent text from a one-document store
is a no-op, and removing the present text empties it. -/
theorem remove_deletes_matching_noop_otherwise_witness :
    (∀ d ∈ ([[("text", MVal.str "A")]] : List Doc),
      textMatches d "Z" = false) ∧
    mongoRemove [[("text", MVal.str "A")]] "Z" = [[("text", MVal.str "A")]] ∧
    (textCount [[("text", MVal.str "A")]] "A" ≤ 1 ∧
      ∀ d ∈ mongoRemove [[("text", MVal.str "A")]] "A",
        textMatches d "A" = false) := by
  refine ⟨by decide, ?_, by decide, ?_⟩
  · exact (remove_deletes_matching_noop_otherwise
      [[("text", MVal.str "A")]] "Z").1 (by decide)
  · exact (remove_deletes_matching_noop_otherwise
      [[("text", MVal.str "A")]] "A").2.2.2 (by decide)

/-! ### Ordering lemmas for the sort -/

theorem natCmp_swap (x y : Nat) : natCmp x y = (natCmp y x).swap := by
  unfold natCmp
  split_ifs <;> first | rfl | omega

theorem natCmp_ne_gt {x y : Nat} : natCmp x y ≠ .gt ↔ x ≤ y := by
  unfold natCmp
  split_ifs <;> simp <;> omega

theorem strCmp_swap (x y : String) : strCmp x y = (strCmp y x).swap := by
  unfold strCmp
  split_ifs with h1 h2 h3
  · exact absurd h2 (lt_asymm h1)
  · rfl
  · rfl
  · rfl

theorem strCmp_ne_gt {x y : String} : strCmp x y ≠ .gt ↔ x ≤ y := by
  unfold strCmp
  split_ifs with h1 h2
  · simp [le_of_lt h1]
  · simp [not_le.mpr h2]
  · simp [le_of_not_lt h2]

theorem mvalCmp_swap (a b : MVal) : mvalCmp a b = (mvalCmp b a).swap := by
  cases a <;> cases b <;>
    simp only [mvalCmp, mvalRank] <;>
    first
      | rfl
      | exact natCmp_swap _ _
      | exact strCmp_swap _ _

theorem mvalLe_total (a b : MVal) : mvalLe a b ∨ mvalLe b a := by
  by_cases h : mvalCmp a b = .gt
  · right
    intro hc
    rw [mvalCmp_swap, hc] at h
    exact absurd h (by simp [Ordering.swap])
  · exact Or.inl h

theorem mvalLe_trans {a b c : MVal} (h1 : mvalLe a b) (h2 : mvalLe b c) :
    mvalLe a c := by
  unfold mvalLe at *
  cases a <;> cases b <;> cases c <;>
    simp only [mvalCmp, mvalRank] at * <;>
    first
      | exact h1
      | exact h2
      | (intro h; exact h1 (by decide))
      | (intro h; exact h2 (by decide))
      | exact natCmp_ne_gt.mpr
          (le_trans (natCmp_ne_gt.mp h1) (natCmp_ne_gt.mp h2))
      | exact strCmp_ne_gt.mpr
          (le_trans (strCmp_ne_gt.mp h1) (strCmp_ne_gt.mp h2))

theorem docCmp_single_desc (a b : Doc) :
    docCmp [("created_at", SortDir.desc)] a b =
      (mvalCmp (createdVal a) (createdVal b)).swap := by
  simp only [docCmp, fieldCmp, createdVal]
  cases mvalCmp ((alookup a "created_at").getD MVal.null)
      ((alookup b "created_at").getD MVal.null) <;> rfl

theorem docLe_single_desc (a b : Doc) :
    docLe [("created_at", SortDir.desc)] a b ↔
      mvalLe (createdVal b) (createdVal a) := by
  unfold docLe mvalLe
  rw [docCmp_single_desc, mvalCmp_swap (createdVal a)]
  cases mvalCmp (createdVal b) (createdVal a) <;> simp [Ordering.swap]

theorem sortDocs_single_desc_sorted (l : List Doc) :
    List.Sorted (docLe [("created_at", SortDir.desc)])
      (sortDocs [("created_at", SortDir.desc)] l) := by
  have htot : IsTotal Doc (docLe [("created_at", SortDir.desc)]) := by
    constructor
    intro a b
    rw [docLe_single_desc, docLe_single_desc]
    exact mvalLe_total (createdVal b) (createdVal a)
  have htrans : IsTrans Doc (docLe [("created_at", SortDir.desc)]) := by
    constructor
    intro a b c hab hbc
    rw [docLe_single_desc] at *
    exact mvalLe_trans hbc hab
  exact @List.sorted_insertionSort Doc _ _ htot htrans l

theorem sortDocs_perm (spec : List (String × SortDir)) (l : List Doc) :
    List.Perm (sortDocs spec l) l :=
  List.perm_insertionSort _ l

theorem mongo_to_object_created_at {d : Doc} {n : Nat}
    (h : alookup d "created_at" = some (MVal.nat n)) :
    (mongo_to_object d).created_at = n := by
  simp [mongo_to_object, h]

/-! ### Claim C5 -/

/-- C5: whenever the `order_by` list contains `'created_at'`, the
emitted sort specification puts `created_at` first with descending
(newest-first) direction, followed by the remaining requested fields,
ascending, in their given order with `'created_at'` removed; and with
distinct `created_at` timestamps and `order_by=['created_at']` the
results of `filter` come back newest-first. -/
theorem filter_created_at_first_desc :
    (∀ ob : List String, "created_at" ∈ ob →
      (buildOrdering ob).1 = ("created_at", SortDir.desc) ::
        (ob.erase "created_at").map fun f => (f, SortDir.asc)) ∧
    (∀ (store : List Doc) (base kwargs : MongoQuery),
      (∀ d ∈ store, ∃ n, alookup d "created_at" = some (MVal.nat n)) →
      (store.map createdVal).Nodup →
      List.Pairwise (fun a b : Statement => b.created_at < a.created_at)
        (mongoFilter store base kwargs (some ["created_at"])).1) := by
  constructor
  · intro ob h
    simp [buildOrdering, h]
  · intro store base kwargs hnat hnd
    have hmf : (mongoFilter store base kwargs (some ["created_at"])).1 =
        (sortDocs [("created_at", SortDir.desc)]
          (store.filter fun d =>
            matchesDoc (rawMergeQ base kwargs) d)).map mongo_to_object := rfl
    rw [hmf]
    set found := store.filter fun d =>
      matchesDoc (rawMergeQ base kwargs) d with hfound
    set sorted := sortDocs [("created_at", SortDir.desc)] found with hsorted
    have hsub : found ⊆ store := (List.filter_sublist _).subset
    have hperm : List.Perm sorted found := sortDocs_perm _ _
    have hps : List.Pairwise (docLe [("created_at", SortDir.desc)]) sorted :=
      sortDocs_single_desc_sorted found
    have hndf : (found.map createdVal).Nodup :=
      hnd.sublist ((List.filter_sublist _).map createdVal)
    have hnds : (sorted.map createdVal).Nodup :=
      ((hperm.map createdVal).nodup_iff).mpr hndf
    have hpne : List.Pairwise
        (fun a b : Doc => createdVal a ≠ createdVal b) sorted :=
      List.pairwise_map.mp hnds
    have hcomb := hps.and hpne
    rw [List.pairwise_map]
    refine hcomb.imp_of_mem ?_
    intro a b ha hb hab
    obtain ⟨na, hna⟩ := hnat a (hsub (hperm.subset ha))
    obtain ⟨nb, hnb⟩ := hnat b (hsub (hperm.subset hb))
    rw [mongo_to_object_created_at hna, mongo_to_object_created_at hnb]
    have hle := (docLe_single_desc a b).mp hab.1
    have hca : createdVal a = MVal.nat na := by simp [createdVal, hna]
    have hcb : createdVal b = MVal.nat nb := by simp [createdVal, hnb]
    rw [hca, hcb] at hle
    have hnn : nb ≤ na := natCmp_ne_gt.mp hle
    have hne' : na ≠ nb := by
      intro e
      exact hab.2 (by rw [hca, hcb, e])
    omega

/-- Witness for C5: a two-field ordering request and a concrete
three-document store with distinct timestamps. -/
theorem filter_created_at_first_desc_witness :
    ((buildOrdering ["length", "created_at"]).1 =
      [("created_at", SortDir.desc), ("length", SortDir.asc)]) ∧
    List.Pairwise (fun a b : Statement => b.created_at < a.created_at)
      (mongoFilter
        [[("text", MVal.str "B"), ("created_at", MVal.nat 1)],
         [("text", MVal.str "A"), ("created_at", MVal.nat 5)],
         [("text", MVal.str "C"), ("created_at", MVal.nat 3)]] [] []
        (some ["created_at"])).1 := by
  constructor
  · exact filter_created_at_first_desc.1 ["length", "created_at"] (by decide)
  · refine filter_created_at_first_desc.2
      [[("text", MVal.str "B"), ("created_at", MVal.nat 1)],
       [("text", MVal.str "A"), ("created_at", MVal.nat 5)],
       [("text", MVal.str "C"), ("created_at", MVal.nat 3)]] [] [] ?_ ?_
    · intro d hd
      fin_cases hd <;> exact ⟨_, rfl⟩
    · decide

theorem matchesDoc_cons (kc : String × Cond) (q : MongoQuery) (d : Doc) :
    matchesDoc (kc :: q) d =
      (condMatch kc.2 (alookup d kc.1) && matchesDoc q d) := by
  simp [matchesDoc]

theorem respValues_mem (store : List Doc) (v : MVal) :
    v ∈ respValues store ↔
      ∃ d2 ∈ store, alookup d2 "in_response_to" = some v ∧
        v ≠ MVal.null := by
  unfold respValues
  rw [List.mem_filterMap]
  constructor
  · rintro ⟨r, hr, hl⟩
    rw [List.mem_filter] at hr
    have hm := hr.2
    simp only [matchesDoc, List.all_cons, List.all_nil, Bool.and_true,
      condMatch, decide_eq_true_eq, hl, Option.getD_some] at hm
    exact ⟨r, hr.1, hl, hm⟩
  · rintro ⟨d2, hd2, hl, hne⟩
    refine ⟨d2, List.mem_filter.mpr ⟨hd2, ?_⟩, hl⟩
    simp only [matchesDoc, List.all_cons, List.all_nil, Bool.and_true,
      condMatch, decide_eq_true_eq, hl, Option.getD_some]
    exact hne

/-! ### Claim C4 -/

/-- C4: `get_response_statements` returns exactly the stored statements
whose `text` is among the non-null `in_response_to` values collected
across all stored statements, additionally constrained by the adapter's
base scope query (whose bindings are merged on top and, in this
adapter, never bind `text`: `base_query` is always `Query()` here); on
the spec's example store the result is exactly the statement with text
`"B"`. -/
theorem get_response_statements_spec :
    (∀ (store : List Doc) (base : MongoQuery),
      (∀ kc ∈ base, kc.1 ≠ "text") → (akeys base).Nodup →
      ∀ st : Statement,
        st ∈ get_response_statements store base ↔
        ∃ d ∈ store, st = mongo_to_object d ∧ matchesDoc base d = true ∧
          ∃ d2 ∈ store, ∃ v, alookup d2 "in_response_to" = some v ∧
            v ≠ MVal.null ∧ (alookup d "text").getD MVal.null = v) ∧
    get_response_statements
      [[("text", MVal.str "A"), ("in_response_to", MVal.str "B")],
       [("text", MVal.str "B"), ("in_response_to", MVal.null)]] [] =
      [mongo_to_object
        [("text", MVal.str "B"), ("in_response_to", MVal.null)]] := by
  constructor
  · intro store base hb hnd st
    have hq : rawMergeQ [("text", Cond.cin (respValues store))] base =
        ("text", Cond.cin (respValues store)) :: base := by
      unfold rawMergeQ
      rw [foldl_aset_of_disjoint base [("text", Cond.cin (respValues store))]
        ?_ hnd]
      · simp
      · intro kc hkc
        simp only [akeys, List.map_cons, List.map_nil, List.mem_singleton]
        exact hb kc hkc
    simp only [get_response_statements, hq, List.mem_map, List.mem_filter,
      matchesDoc_cons, Bool.and_eq_true, condMatch, decide_eq_true_eq]
    constructor
    · rintro ⟨d, ⟨hd, hin, hbase⟩, rfl⟩
      rw [respValues_mem] at hin
      obtain ⟨d2, hd2, hl, hne⟩ := hin
      exact ⟨d, hd, rfl, hbase, d2, hd2, _, hl, hne, rfl⟩
    · rintro ⟨d, hd, rfl, hbase, d2, hd2, v, hl, hne, hv⟩
      refine ⟨d, ⟨hd, ?_, hbase⟩, rfl⟩
      rw [respValues_mem, hv]
      exact ⟨d2, hd2, hl, hne⟩
  · rfl

/-- Witness for C4 on the spec's own example store with the adapter's
actual (empty) base query. -/
theorem get_response_statements_spec_witness :
    (mongo_to_object [("text", MVal.str "B"), ("in_response_to", MVal.null)] ∈
      get_response_statements
        [[("text", MVal.str "A"), ("in_response_to", MVal.str "B")],
         [("text", MVal.str "B"), ("in_response_to", MVal.null)]] []) ↔
    ∃ d ∈ ([[("text", MVal.str "A"), ("in_response_to", MVal.str "B")],
            [("text", MVal.str "B"), ("in_response_to", MVal.null)]] :
            List Doc),
      mongo_to_object [("text", MVal.str "B"), ("in_response_to", MVal.null)] =
        mongo_to_object d ∧ matchesDoc [] d = true ∧
      ∃ d2 ∈ ([[("text", MVal.str "A"), ("in_response_to", MVal.str "B")],
               [("text", MVal.str "B"), ("in_response_to", MVal.null)]] :
               List Doc),
        ∃ v, alookup d2 "in_response_to" = some v ∧ v ≠ MVal.null ∧
          (alookup d "text").getD MVal.null = v :=
  get_response_statements_spec.1
    [[("text", MVal.str "A"), ("in_response_to", MVal.str "B")],
     [("text", MVal.str "B"), ("in_response_to", MVal.null)]] []
    (by decide) (by decide) _

/-! ### Serialization lemmas -/

theorem alookup_serialize_text (s : Statement) :
    alookup s.serialize "text" = some (MVal.str s.text) := rfl

theorem alookup_serialize_irt (s : Statement) :
    alookup s.serialize "in_response_to" = some (optStr s.in_response_to) :=
  rfl

theorem alookup_serialize_created (s : Statement) :
    alookup s.serialize "created_at" = some (MVal.nat s.created_at) := rfl

theorem alookup_serialize_not_known {k : String} (s : Statement)
    (hk : knownKey k = false) :
    alookup s.serialize k = alookup s.extras k := by
  have h := of_decide_eq_false hk
  push_neg at h
  have e1 : ¬ "text" = k := fun e => h.1 e.symm
  have e2 : ¬ "in_response_to" = k := fun e => h.2.1 e.symm
  have e3 : ¬ "created_at" = k := fun e => h.2.2 e.symm
  simp only [Statement.serialize, alookup_cons, if_neg e1, if_neg e2,
    if_neg e3]

theorem serialize_keys_nodup (s : Statement) (hwf : wfStatement s) :
    (akeys s.serialize).Nodup := by
  obtain ⟨h1, h2⟩ := hwf
  have hnk : ∀ k ∈ akeys s.extras, knownKey k = false := by
    intro k hk
    obtain ⟨kv, hkv, rfl⟩ := List.mem_map.mp hk
    exact h1 kv hkv
  have ht : "text" ∉ akeys s.extras := fun h => by
    have := hnk _ h; simp [knownKey] at this
  have hi : "in_response_to" ∉ akeys s.extras := fun h => by
    have := hnk _ h; simp [knownKey] at this
  have hc : "created_at" ∉ akeys s.extras := fun h => by
    have := hnk _ h; simp [knownKey] at this
  have hs : akeys s.serialize =
      "text" :: "in_response_to" :: "created_at" :: akeys s.extras := rfl
  rw [hs]
  refine List.nodup_cons.mpr ⟨?_, List.nodup_cons.mpr ⟨?_,
    List.nodup_cons.mpr ⟨hc, h2⟩⟩⟩
  · simp only [List.mem_cons]
    push_neg
    exact ⟨by decide, by decide, ht⟩
  · simp only [List.mem_cons]
    push_neg
    exact ⟨by decide, hi⟩

theorem eqFields_textQ (t : String) :
    eqFields (textQ t) = [("text", MVal.str t)] := rfl

theorem textMatches_applySet (d : Doc) (s : Statement)
    (hnd : (akeys s.serialize).Nodup) :
    textMatches (applySet d s.serialize) s.text = true := by
  unfold textMatches matchesDoc textQ
  simp [condMatch, alookup_applySet d s.serialize "text" hnd,
    alookup_serialize_text]

/-! ### Upsert decomposition lemmas -/

theorem updateOneUpsert_decompose (filt : MongoQuery) (data : Doc)
    (l1 : List Doc) (m : Doc) (l2 : List Doc)
    (h1 : ∀ d ∈ l1, matchesDoc filt d = false)
    (hm : matchesDoc filt m = true) :
    updateOneUpsert filt data (l1 ++ m :: l2) =
      l1 ++ applySet m data :: l2 := by
  induction l1 with
  | nil => simp [updateOneUpsert, hm]
  | cons d l1' ih =>
      have hd : matchesDoc filt d = false := h1 d (by simp)
      simp only [List.cons_append, updateOneUpsert, hd, Bool.false_eq_true,
        if_false, List.append_eq]
      rw [ih fun d' hd' => h1 d' (List.mem_cons_of_mem _ hd')]

theorem updateOneUpsert_no_match (filt : MongoQuery) (data : Doc)
    (store : List Doc) (h : ∀ d ∈ store, matchesDoc filt d = false) :
    updateOneUpsert filt data store =
      store ++ [applySet (eqFields filt) data] := by
  induction store with
  | nil => simp [updateOneUpsert]
  | cons d ds ih =>
      have hd : matchesDoc filt d = false := h d (by simp)
      simp only [updateOneUpsert, hd, Bool.false_eq_true, if_false,
        List.cons_append]
      rw [ih fun d' hd' => h d' (List.mem_cons_of_mem _ hd')]

theorem filter_mongoUpdate (store : List Doc) (s : Statement)
    (hnd : (akeys s.serialize).Nodup) (hc : textCount store s.text ≤ 1) :
    (mongoUpdate store s).filter (fun d => textMatches d s.text) =
      [applySet ((store.find? fun d => textMatches d s.text).getD
        [("text", MVal.str s.text)]) s.serialize] := by
  unfold mongoUpdate
  induction store with
  | nil =>
      simp [updateOneUpsert, eqFields_textQ, List.filter_cons,
        textMatches_applySet _ s hnd]
  | cons d ds ih =>
      by_cases hm : textMatches d s.text
      · have h0 : textCount ds s.text = 0 := by
          rw [textCount_cons, if_pos hm] at hc
          omega
        have hfds : ds.filter (fun d' => textMatches d' s.text) = [] := by
          rw [List.filter_eq_nil_iff]
          intro a ha
          simp [textCount_eq_zero.mp h0 a ha]
        have hm' : matchesDoc (textQ s.text) d = true := hm
        simp [updateOneUpsert, hm', List.filter_cons,
          textMatches_applySet _ s hnd, hfds, List.find?, hm]
      · have hm' : matchesDoc (textQ s.text) d = false := by
          simpa using hm
        have hc' : textCount ds s.text ≤ 1 := by
          rw [textCount_cons, if_neg hm] at hc
          omega
        have hmB : textMatches d s.text = false := by simpa using hm
        simp only [updateOneUpsert, hm', Bool.false_eq_true, if_false,
          List.filter_cons, hmB, List.find?, ih hc']

theorem mongo_to_object_applySet (s : Statement) (hwf : wfStatement s)
    (base : Doc) (hb : ∀ kv ∈ base, kv.1 ∈ akeys s.serialize) :
    sameExceptConfidence (mongo_to_object (applySet base s.serialize)) s =
      true := by
  have hnd := serialize_keys_nodup s hwf
  have hlook : ∀ k, alookup (applySet base s.serialize) k =
      (alookup s.serialize k).or (alookup base k) :=
    fun k => alookup_applySet base s.serialize k hnd
  have hkey : ∀ k, knownKey k = false →
      alookup (applySet base s.serialize) k = alookup s.extras k := by
    intro k hk
    rw [hlook k, alookup_serialize_not_known s hk]
    cases he : alookup s.extras k with
    | some v => rfl
    | none =>
        have hkb : alookup base k = none := by
          rw [alookup_eq_none_iff]
          intro hmem
          obtain ⟨kv, hkv, rfl⟩ := List.mem_map.mp hmem
          have hser : (alookup s.serialize kv.1).isSome :=
            (mem_akeys_iff _ _).mp (hb kv hkv)
          rw [alookup_serialize_not_known s hk, he] at hser
          simp at hser
        rw [hkb]
        rfl
  have htext : alookup (applySet base s.serialize) "text" =
      some (MVal.str s.text) := by
    rw [hlook, alookup_serialize_text]
    rfl
  have hirt : alookup (applySet base s.serialize) "in_response_to" =
      some (optStr s.in_response_to) := by
    rw [hlook, alookup_serialize_irt]
    rfl
  have hcre : alookup (applySet base s.serialize) "created_at" =
      some (MVal.nat s.created_at) := by
    rw [hlook, alookup_serialize_created]
    rfl
  simp only [sameExceptConfidence, decide_eq_true_eq]
  refine ⟨?_, ?_, ?_, ?_, ?_⟩
  · simp [mongo_to_object, htext]
  · cases hc : s.in_response_to <;>
      simp [mongo_to_object, hirt, hc, optStr]
  · simp [mongo_to_object, hcre]
  · simp only [docSubB, List.all_eq_true, decide_eq_true_eq,
      mongo_to_object]
    intro kv hkv
    have hmem := List.mem_filter.mp hkv
    have hkk : knownKey kv.1 = false := by
      have := hmem.2
      simpa using this
    rw [alookup_filterKey (fun k => ! knownKey k), hkk]
    simp only [Bool.not_false, if_true]
    exact (hkey kv.1 hkk).symm
  · simp only [docSubB, List.all_eq_true, decide_eq_true_eq,
      mongo_to_object]
    intro kv hkv
    have hkk : knownKey kv.1 = false := hwf.1 kv hkv
    rw [alookup_filterKey (fun k => ! knownKey k), hkk]
    simp only [Bool.not_false, if_true]
    exact hkey kv.1 hkk

/-! ### Claim C1 -/

theorem mongo_to_object_applySet_fields (s : Statement)
    (hwf : wfStatement s) (base : Doc) :
    (mongo_to_object (applySet base s.serialize)).text = s.text ∧
    (mongo_to_object (applySet base s.serialize)).in_response_to =
      s.in_response_to ∧
    (mongo_to_object (applySet base s.serialize)).created_at =
      s.created_at ∧
    ∀ k, knownKey k = false →
      alookup (mongo_to_object (applySet base s.serialize)).extras k =
        (alookup s.extras k).or (alookup base k) := by
  have hnd := serialize_keys_nodup s hwf
  have hlook : ∀ k, alookup (applySet base s.serialize) k =
      (alookup s.serialize k).or (alookup base k) :=
    fun k => alookup_applySet base s.serialize k hnd
  have htext : alookup (applySet base s.serialize) "text" =
      some (MVal.str s.text) := by
    rw [hlook, alookup_serialize_text]
    rfl
  have hirt : alookup (applySet base s.serialize) "in_response_to" =
      some (optStr s.in_response_to) := by
    rw [hlook, alookup_serialize_irt]
    rfl
  have hcre : alookup (applySet base s.serialize) "created_at" =
      some (MVal.nat s.created_at) := by
    rw [hlook, alookup_serialize_created]
    rfl
  refine ⟨?_, ?_, ?_, ?_⟩
  · simp [mongo_to_object, htext]
  · cases hc : s.in_response_to <;>
      simp [mongo_to_object, hirt, hc, optStr]
  · simp [mongo_to_object, hcre]
  · intro k hk
    simp only [mongo_to_object]
    rw [alookup_filterKey (fun k => ! knownKey k), hk]
    simp only [Bool.not_false, if_true]
    rw [hlook, alookup_serialize_not_known s hk]

/-- Counterexample to C1 as stated: at the store
`[{text: "A", tag: "x"}]` the at-most-one-per-text invariant holds and
the updated statement is well formed, yet after `update(s)` the single
statement returned by `filter(text="A")` is not equal to `s` except
confidence — the `$set` write merges, so the pre-existing `"tag"`
field survives into the returned statement's extra fields. -/
theorem update_equal_except_confidence_counterexample :
    textCount [[("text", MVal.str "A"), ("tag", MVal.str "x")]] "A" ≤ 1 ∧
    wfStatement (⟨"A", none, 0, [], 0⟩ : Statement) ∧
    (mongoFilter
        (mongoUpdate [[("text", MVal.str "A"), ("tag", MVal.str "x")]]
          (⟨"A", none, 0, [], 0⟩ : Statement)) [] (textQ "A") none).1 =
      [mongo_to_object [("text", MVal.str "A"), ("tag", MVal.str "x"),
        ("in_response_to", MVal.null), ("created_at", MVal.nat 0)]] ∧
    sameExceptConfidence
      (mongo_to_object [("text", MVal.str "A"), ("tag", MVal.str "x"),
        ("in_response_to", MVal.null), ("created_at", MVal.nat 0)])
      (⟨"A", none, 0, [], 0⟩ : Statement) = false := by
  refine ⟨by decide, by decide, by decide, by decide⟩

/-- C1 amended: from any store satisfying the at-most-one-per-text
invariant, `update(s)` leaves exactly one stored record with text
`s.text`, and `filter(text=s.text)` returns exactly one statement
whose `text`, `in_response_to` and `created_at` equal those of `s` and
whose extra fields are the extras of `s` overlaid on the surviving
extra fields of the prior matching record (`$set` merge); when no
record with that text existed, the returned statement equals `s`
except confidence; and a second `update` with the same text still
leaves exactly one record — never two. -/
theorem update_upserts_unique_text (store : List Doc) (s : Statement)
    (hinv : textCount store s.text ≤ 1) (hwf : wfStatement s) :
    textCount (mongoUpdate store s) s.text = 1 ∧
    (∃ st : Statement,
      (mongoFilter (mongoUpdate store s) [] (textQ s.text) none).1 = [st] ∧
      st.text = s.text ∧ st.in_response_to = s.in_response_to ∧
      st.created_at = s.created_at ∧
      (∀ k, knownKey k = false →
        alookup st.extras k =
          (alookup s.extras k).or
            (alookup ((store.find? fun d => textMatches d s.text).getD
              [("text", MVal.str s.text)]) k)) ∧
      ((∀ d ∈ store, textMatches d s.text = false) →
        sameExceptConfidence st s = true)) ∧
    (∀ s2 : Statement, s2.text = s.text → wfStatement s2 →
      textCount (mongoUpdate (mongoUpdate store s) s2) s2.text = 1) := by
  have hnd := serialize_keys_nodup s hwf
  have hfil := filter_mongoUpdate store s hnd hinv
  have hcount1 : textCount (mongoUpdate store s) s.text = 1 := by
    simp [textCount, hfil]
  refine ⟨hcount1, ?_, ?_⟩
  · have hmf : (mongoFilter (mongoUpdate store s) [] (textQ s.text) none).1 =
        ((mongoUpdate store s).filter fun d =>
          textMatches d s.text).map mongo_to_object := rfl
    obtain ⟨ht, hi, hc, he⟩ := mongo_to_object_applySet_fields s hwf
      ((store.find? fun d => textMatches d s.text).getD
        [("text", MVal.str s.text)])
    refine ⟨mongo_to_object (applySet
      ((store.find? fun d => textMatches d s.text).getD
        [("text", MVal.str s.text)]) s.serialize),
      ?_, ht, hi, hc, he, ?_⟩
    · rw [hmf, hfil]
      rfl
    · intro hnone
      have hfn : store.find? (fun d => textMatches d s.text) = none := by
        rw [List.find?_eq_none]
        intro d hd
        simp [hnone d hd]
      rw [hfn]
      simp only [Option.getD_none]
      apply mongo_to_object_applySet s hwf
      intro kv hkv
      rcases List.mem_singleton.mp hkv with rfl
      exact List.mem_cons_self _ _
  · intro s2 ht2 hwf2
    have hnd2 := serialize_keys_nodup s2 hwf2
    have hc2 : textCount (mongoUpdate store s) s2.text ≤ 1 := by
      rw [ht2, hcount1]
    have hfil2 := filter_mongoUpdate (mongoUpdate store s) s2 hnd2 hc2
    simp [textCount, hfil2]

/-- Witness for C1: updating a statement (with a transient nonzero
confidence and an extra field) into an empty store. -/
theorem update_upserts_unique_text_witness :
    textCount [] "Hi" ≤ 1 ∧
    wfStatement (⟨"Hi", some "Yo", 3, [("tag", MVal.str "x")], 7⟩ :
      Statement) ∧
    (textCount (mongoUpdate []
        (⟨"Hi", some "Yo", 3, [("tag", MVal.str "x")], 7⟩ : Statement))
      "Hi" = 1 ∧
    (∃ st : Statement,
      (mongoFilter (mongoUpdate []
          (⟨"Hi", some "Yo", 3, [("tag", MVal.str "x")], 7⟩ : Statement))
        [] (textQ "Hi") none).1 = [st] ∧
      st.text = "Hi" ∧ st.in_response_to = some "Yo" ∧
      st.created_at = 3 ∧
      (∀ k, knownKey k = false →
        alookup st.extras k =
          (alookup [("tag", MVal.str "x")] k).or
            (alookup ((([] : List Doc).find? fun d =>
                textMatches d "Hi").getD [("text", MVal.str "Hi")]) k)) ∧
      ((∀ d ∈ ([] : List Doc), textMatches d "Hi" = false) →
        sameExceptConfidence st
          (⟨"Hi", some "Yo", 3, [("tag", MVal.str "x")], 7⟩ : Statement) =
          true)) ∧
    (∀ s2 : Statement, s2.text = "Hi" → wfStatement s2 →
      textCount (mongoUpdate (mongoUpdate []
          (⟨"Hi", some "Yo", 3, [("tag", MVal.str "x")], 7⟩ : Statement))
        s2) s2.text = 1)) :=
  ⟨by decide, by decide,
    update_upserts_unique_text []
      (⟨"Hi", some "Yo", 3, [("tag", MVal.str "x")], 7⟩ : Statement)
      (by decide) (by decide)⟩

/-! ### Claim C3 -/

/-- Counterexample to C3 as stated: updating the statement with text
`"A"` (and no extra fields) against a store whose matching record
carries a field `"tag"` leaves `"tag"` in the stored record — the
`$set` write merges fields instead of replacing the record, so the
stored field set does not equal the serialized field set of `s`. -/
theorem update_replaces_fields_counterexample :
    mongoUpdate [[("text", MVal.str "A"), ("tag", MVal.str "x")]]
      (⟨"A", none, 0, [], 0⟩ : Statement) =
      [[("text", MVal.str "A"), ("tag", MVal.str "x"),
        ("in_response_to", MVal.null), ("created_at", MVal.nat 0)]] ∧
    alookup [("text", MVal.str "A"), ("tag", MVal.str "x"),
        ("in_response_to", MVal.null), ("created_at", MVal.nat 0)]
      "tag" = some (MVal.str "x") ∧
    alookup (Statement.serialize (⟨"A", none, 0, [], 0⟩ : Statement))
      "tag" = none := by
  refine ⟨by decide, by decide, by decide⟩

/-- C3 amended: `update(s)` merges (MongoDB `$set`) the serialized
fields of `s` into the first record whose `text` matches — serialized
fields overwrite, pre-existing fields absent from the serialization
survive; when no record matches, a new record carrying exactly the
serialized fields is inserted. -/
theorem update_set_merges (s : Statement) (hwf : wfStatement s) :
    (∀ (l1 : List Doc) (m : Doc) (l2 : List Doc),
      (∀ d ∈ l1, textMatches d s.text = false) →
      textMatches m s.text = true →
      mongoUpdate (l1 ++ m :: l2) s = l1 ++ applySet m s.serialize :: l2 ∧
      ∀ k, alookup (applySet m s.serialize) k =
        (alookup s.serialize k).or (alookup m k)) ∧
    (∀ store : List Doc, (∀ d ∈ store, textMatches d s.text = false) →
      mongoUpdate store s =
        store ++ [applySet [("text", MVal.str s.text)] s.serialize] ∧
      ∀ k, alookup (applySet [("text", MVal.str s.text)] s.serialize) k =
        alookup s.serialize k) := by
  have hnd := serialize_keys_nodup s hwf
  constructor
  · intro l1 m l2 h1 hm
    exact ⟨updateOneUpsert_decompose _ _ l1 m l2 h1 hm,
      fun k => alookup_applySet m _ k hnd⟩
  · intro store h
    refine ⟨?_, ?_⟩
    · rw [show mongoUpdate store s =
          updateOneUpsert (textQ s.text) s.serialize store from rfl,
        updateOneUpsert_no_match _ _ _ h, eqFields_textQ]
    · intro k
      rw [alookup_applySet _ _ _ hnd]
      by_cases hk : k = "text"
      · subst hk
        rw [alookup_serialize_text]
        rfl
      · have hb : alookup [("text", MVal.str s.text)] k = none := by
          have hne : ¬ "text" = k := fun e => hk e.symm
          simp [alookup, hne]
        rw [hb]
        cases alookup s.serialize k <;> rfl

/-- Witness for C3 applied at a concrete matching record carrying an
extra field. -/
theorem update_set_merges_witness :
    textMatches [("text", MVal.str "A"), ("tag", MVal.str "x")] "A" =
      true ∧
    wfStatement (⟨"A", none, 0, [], 0⟩ : Statement) ∧
    (mongoUpdate
        ([] ++ [("text", MVal.str "A"), ("tag", MVal.str "x")] :: [])
        (⟨"A", none, 0, [], 0⟩ : Statement) =
      [] ++ applySet [("text", MVal.str "A"), ("tag", MVal.str "x")]
        (Statement.serialize (⟨"A", none, 0, [], 0⟩ : Statement)) :: [] ∧
    ∀ k, alookup (applySet [("text", MVal.str "A"), ("tag", MVal.str "x")]
        (Statement.serialize (⟨"A", none, 0, [], 0⟩ : Statement))) k =
      (alookup (Statement.serialize (⟨"A", none, 0, [], 0⟩ : Statement))
        k).or (alookup [("text", MVal.str "A"), ("tag", MVal.str "x")] k)) :=
  ⟨by decide, by decide,
    (update_set_merges (⟨"A", none, 0, [], 0⟩ : Statement) (by decide)).1
      [] [("text", MVal.str "A"), ("tag", MVal.str "x")] []
      (by decide) (by decide)⟩

/-! ### Heap lemmas -/

theorem getDict_lt {h : Heap} {r : Nat} {d : PyDict}
    (hd : h.getDict r = some d) : r < h.dicts.length :=
  (List.getElem?_eq_some.mp hd).1

theorem getList_lt {h : Heap} {r : Nat} {l : List PyVal}
    (hl : h.getList r = some l) : r < h.lists.length :=
  (List.getElem?_eq_some.mp hl).1

theorem getDict_allocDict_self (h : Heap) (d : PyDict) :
    (h.allocDict d).1.getDict h.dicts.length = some d := by
  simp only [Heap.allocDict, Heap.getDict]
  exact List.getElem?_concat_length _ _

theorem getDict_allocDict_of_lt (h : Heap) (d : PyDict) {r : Nat}
    (hr : r < h.dicts.length) :
    (h.allocDict d).1.getDict r = h.getDict r := by
  simp only [Heap.allocDict, Heap.getDict, List.getElem?_append, if_pos hr]

theorem getList_allocDict (h : Heap) (d : PyDict) (r : Nat) :
    (h.allocDict d).1.getList r = h.getList r := rfl

theorem getDict_allocList (h : Heap) (l : List PyVal) (r : Nat) :
    (h.allocList l).1.getDict r = h.getDict r := rfl

theorem getList_allocList_self (h : Heap) (l : List PyVal) :
    (h.allocList l).1.getList h.lists.length = some l := by
  simp only [Heap.allocList, Heap.getList]
  exact List.getElem?_concat_length _ _

theorem getList_allocList_of_lt (h : Heap) (l : List PyVal) {r : Nat}
    (hr : r < h.lists.length) :
    (h.allocList l).1.getList r = h.getList r := by
  simp only [Heap.allocList, Heap.getList, List.getElem?_append, if_pos hr]

theorem getDict_setDict_self {h : Heap} {r : Nat} (d : PyDict)
    (hr : r < h.dicts.length) :
    (h.setDict r d).getDict r = some d := by
  simp only [Heap.setDict, Heap.getDict]
  rw [List.getElem?_set_self']
  simp [List.getElem?_eq_getElem hr]

theorem getDict_setDict_ne {h : Heap} {r r' : Nat} (d : PyDict)
    (hne : r' ≠ r) :
    (h.setDict r d).getDict r' = h.getDict r' := by
  simp only [Heap.setDict, Heap.getDict]
  exact List.getElem?_set_ne (Ne.symm hne)

theorem getList_setDict (h : Heap) (r : Nat) (d : PyDict) (r' : Nat) :
    (h.setDict r d).getList r' = h.getList r' := rfl

theorem getDict_setList (h : Heap) (r : Nat) (l : List PyVal) (r' : Nat) :
    (h.setList r l).getDict r' = h.getDict r' := rfl

theorem getList_setList_self {h : Heap} {r : Nat} (l : List PyVal)
    (hr : r < h.lists.length) :
    (h.setList r l).getList r = some l := by
  simp only [Heap.setList, Heap.getList]
  rw [List.getElem?_set_self']
  simp [List.getElem?_eq_getElem hr]

theorem getList_setList_ne {h : Heap} {r r' : Nat} (l : List PyVal)
    (hne : r' ≠ r) :
    (h.setList r l).getList r' = h.getList r' := by
  simp only [Heap.setList, Heap.getList]
  exact List.getElem?_set_ne (Ne.symm hne)

theorem allocDict_snd (h : Heap) (d : PyDict) :
    (h.allocDict d).2 = h.dicts.length := rfl

theorem allocList_snd (h : Heap) (l : List PyVal) :
    (h.allocList l).2 = h.lists.length := rfl

theorem queryTextNotIn_step (h : Heap) (q : Nat) (v : List String)
    (l : List PyVal) (hcur : curNin h q = some l) :
    ∃ h2 q2, queryTextNotIn h q v = some (h2, q2) ∧
      curNin h2 q2 = some (l ++ v.map PyVal.str) ∧
      queryNin h2 q2 = some (l ++ v.map PyVal.str) := by
  unfold curNin at hcur
  split at hcur
  · simp at hcur
  · rename_i d hd
    split at hcur
    · rename_i ht
      obtain rfl : ([] : List PyVal) = l := Option.some.inj hcur
      have hqlt : q < h.dicts.length := getDict_lt hd
      have hneD : ((h.allocDict d).1).dicts.length ≠ h.dicts.length := by
        simp [Heap.allocDict]
      have hn2 : h.dicts.length <
          (((h.allocDict d).1.allocDict []).1).dicts.length := by
        simp [Heap.allocDict]
      have hD3 : ((h.allocDict d).1).dicts.length <
          (((((h.allocDict d).1.allocDict []).1).setDict h.dicts.length
              (aset d "text"
                (PyVal.dref ((h.allocDict d).1).dicts.length))).allocList
            []).1.dicts.length := by
        simp [Heap.allocDict, Heap.allocList, Heap.setDict]
      unfold queryTextNotIn
      rw [hd]
      simp only [ht, Option.isSome_none, Bool.false_eq_true, if_false,
        allocDict_snd, allocList_snd, alookup_aset_self, alookup_nil,
        getDict_setDict_ne
          (aset d "text" (PyVal.dref ((h.allocDict d).1).dicts.length))
          hneD,
        getDict_allocDict_self ((h.allocDict d).1) [],
        Option.isSome_some, if_true, getList_setDict,
        getList_allocList_self, List.nil_append]
      have hL : (((h.allocDict d).1.allocDict []).1.setDict h.dicts.length
            (aset d "text"
              (PyVal.dref ((h.allocDict d).1).dicts.length))).lists.length <
          (((((((h.allocDict d).1.allocDict []).1.setDict h.dicts.length
              (aset d "text"
                (PyVal.dref ((h.allocDict d).1).dicts.length))).allocList
            []).1)).setDict ((h.allocDict d).1).dicts.length
              (aset [] "$nin"
                (PyVal.lref
                  (((h.allocDict d).1.allocDict []).1.setDict h.dicts.length
                    (aset d "text"
                      (PyVal.dref
                        ((h.allocDict d).1).dicts.length))).lists.length))).lists.length := by
        simp [Heap.allocDict, Heap.allocList, Heap.setDict]
      refine ⟨_, _, rfl, ?_, ?_⟩
      · simp only [curNin, getDict_setList, getList_setDict,
          getDict_setDict_ne
            (aset [] "$nin"
              (PyVal.lref
                (((h.allocDict d).1.allocDict []).1.setDict h.dicts.length
                  (aset d "text"
                    (PyVal.dref
                      ((h.allocDict d).1).dicts.length))).lists.length))
            (Ne.symm hneD),
          getDict_allocList,
          getDict_setDict_self
            (aset d "text" (PyVal.dref ((h.allocDict d).1).dicts.length))
            hn2,
          alookup_aset_self,
          getDict_setDict_self
            (aset [] "$nin"
              (PyVal.lref
                (((h.allocDict d).1.allocDict []).1.setDict h.dicts.length
                  (aset d "text"
                    (PyVal.dref
                      ((h.allocDict d).1).dicts.length))).lists.length))
            hD3,
          getList_setList_self (List.map PyVal.str v) hL]
      · simp only [queryNin, getDict_setList, getList_setDict,
          getDict_setDict_ne
            (aset [] "$nin"
              (PyVal.lref
                (((h.allocDict d).1.allocDict []).1.setDict h.dicts.length
                  (aset d "text"
                    (PyVal.dref
                      ((h.allocDict d).1).dicts.length))).lists.length))
            (Ne.symm hneD),
          getDict_allocList,
          getDict_setDict_self
            (aset d "text" (PyVal.dref ((h.allocDict d).1).dicts.length))
            hn2,
          alookup_aset_self,
          getDict_setDict_self
            (aset [] "$nin"
              (PyVal.lref
                (((h.allocDict d).1.allocDict []).1.setDict h.dicts.length
                  (aset d "text"
                    (PyVal.dref
                      ((h.allocDict d).1).dicts.length))).lists.length))
            hD3,
          getList_setList_self (List.map PyVal.str v) hL]
    · rename_i ir ht
      split at hcur
      · simp at hcur
      · rename_i idr hir
        split at hcur
        · rename_i hnin
          obtain rfl : ([] : List PyVal) = l := Option.some.inj hcur
          have hqlt : q < h.dicts.length := getDict_lt hd
          have hirlt : ir < h.dicts.length := getDict_lt hir
          have hlr2 : ((h.allocDict d).1).lists.length <
              (((h.allocDict d).1.allocList []).1).lists.length := by
            simp [Heap.allocDict, Heap.allocList]
          have hne1 : h.dicts.length ≠ ir := by omega
          have hir2 : ir <
              (((h.allocDict d).1.allocList []).1).dicts.length := by
            simpa [Heap.allocDict, Heap.allocList] using
              Nat.lt_succ_of_lt hirlt
          unfold queryTextNotIn
          rw [hd]
          simp only [ht, Option.isSome_some, if_true,
            getDict_allocDict_of_lt h d hirlt, hir, hnin,
            Option.isSome_none, Bool.false_eq_true, if_false,
            allocList_snd, alookup_aset_self, getList_setDict,
            getList_allocList_self, List.nil_append]
          have hlr3 : ((h.allocDict d).1).lists.length <
              ((((h.allocDict d).1.allocList []).1).setDict ir
                (aset idr "$nin"
                  (PyVal.lref ((h.allocDict d).1).lists.length))).lists.length :=
            hlr2
          refine ⟨_, _, rfl, ?_, ?_⟩
          · simp only [curNin, getDict_setList, allocDict_snd,
              getDict_setDict_ne
                (aset idr "$nin"
                  (PyVal.lref ((h.allocDict d).1).lists.length)) hne1,
              getDict_allocList, getDict_allocDict_self, ht,
              getDict_setDict_self
                (aset idr "$nin"
                  (PyVal.lref ((h.allocDict d).1).lists.length)) hir2,
              alookup_aset_self,
              getList_setList_self (List.map PyVal.str v) hlr3]
          · simp only [queryNin, getDict_setList, allocDict_snd,
              getDict_setDict_ne
                (aset idr "$nin"
                  (PyVal.lref ((h.allocDict d).1).lists.length)) hne1,
              getDict_allocList, getDict_allocDict_self, ht,
              getDict_setDict_self
                (aset idr "$nin"
                  (PyVal.lref ((h.allocDict d).1).lists.length)) hir2,
              alookup_aset_self,
              getList_setList_self (List.map PyVal.str v) hlr3]
        · rename_i lr hnin
          have hqlt : q < h.dicts.length := getDict_lt hd
          have hirlt : ir < h.dicts.length := getDict_lt hir
          have hlrlt : lr < h.lists.length := getList_lt hcur
          have hlr2 : lr < ((h.allocDict d).1).lists.length := hlrlt
          unfold queryTextNotIn
          rw [hd]
          simp only [ht, Option.isSome_some, if_true,
            getDict_allocDict_of_lt h d hirlt, hir, hnin,
            getList_allocDict, hcur]
          refine ⟨_, _, rfl, ?_, ?_⟩
          · simp only [curNin, allocDict_snd, getDict_setList,
              getDict_allocDict_self, ht,
              getDict_allocDict_of_lt h d hirlt, hir, hnin,
              getList_setList_self (l ++ v.map PyVal.str) hlr2]
          · simp only [queryNin, allocDict_snd, getDict_setList,
              getDict_allocDict_self, ht,
              getDict_allocDict_of_lt h d hirlt, hir, hnin,
              getList_setList_self (l ++ v.map PyVal.str) hlr2]
        · simp at hcur
    · rename_i tv ht h1 h2
      simp at hcur

/-! ### Claim C8 -/

/-- C8: `statement_text_not_in` accumulates exclusions across calls:
deriving first with `v1` and then with `v2` from a query whose current
exclusion list is `l0` yields a query excluding exactly `l0` extended
by `v1` and `v2` — membership-wise the union of the receiver's
exclusions with both argument lists; the second call extends rather
than replaces. -/
theorem statement_text_not_in_accumulates (h : Heap) (q : Nat)
    (v1 v2 : List String) (l0 : List PyVal)
    (hcur : curNin h q = some l0) :
    ∃ h1 q1 h2 q2,
      queryTextNotIn h q v1 = some (h1, q1) ∧
      queryTextNotIn h1 q1 v2 = some (h2, q2) ∧
      queryNin h2 q2 =
        some (l0 ++ v1.map PyVal.str ++ v2.map PyVal.str) ∧
      ∀ x : String,
        PyVal.str x ∈ l0 ++ v1.map PyVal.str ++ v2.map PyVal.str ↔
        (PyVal.str x ∈ l0 ∨ x ∈ v1 ∨ x ∈ v2) := by
  obtain ⟨h1, q1, he1, hc1, hn1⟩ := queryTextNotIn_step h q v1 l0 hcur
  obtain ⟨h2, q2, he2, hc2, hn2⟩ := queryTextNotIn_step h1 q1 v2 _ hc1
  refine ⟨h1, q1, h2, q2, he1, he2, hn2, ?_⟩
  intro x
  simp [List.mem_append]

/-- Witness for C8: both exclusion calls chained from the empty query
object. -/
theorem statement_text_not_in_accumulates_witness :
    curNin ⟨[[]], []⟩ 0 = some [] ∧
    ∃ h1 q1 h2 q2,
      queryTextNotIn ⟨[[]], []⟩ 0 ["a"] = some (h1, q1) ∧
      queryTextNotIn h1 q1 ["b"] = some (h2, q2) ∧
      queryNin h2 q2 =
        some (([] : List PyVal) ++ ["a"].map PyVal.str ++
          ["b"].map PyVal.str) ∧
      ∀ x : String,
        PyVal.str x ∈ ([] : List PyVal) ++ ["a"].map PyVal.str ++
          ["b"].map PyVal.str ↔
        (PyVal.str x ∈ ([] : List PyVal) ∨ x ∈ ["a"] ∨ x ∈ ["b"]) :=
  ⟨rfl, statement_text_not_in_accumulates ⟨[[]], []⟩ 0 ["a"] ["b"] [] rfl⟩

/-! ### Claim C2 -/

/-- C2 fails on the code: `statement_text_not_in` copies the query dict
shallowly, so the derived query shares the nested `$nin` list object
with its receiver, and the `extend` mutates it through the alias.
Here `q1` is derived from the empty query with exclusions `["a"]`;
deriving `q2` from `q1` with `["b"]` returns a new query object
(`q2 ≠ q1`) yet changes the receiver's own observable exclusion list
from `["a"]` to `["a", "b"]` — contradicting the claim that deriving
leaves the receiver's value unchanged. -/
theorem query_not_in_mutates_receiver :
    ∃ h1 q1 h2 q2,
      queryTextNotIn ⟨[[]], []⟩ 0 ["a"] = some (h1, q1) ∧
      queryNin h1 q1 = some [PyVal.str "a"] ∧
      queryTextNotIn h1 q1 ["b"] = some (h2, q2) ∧
      q2 ≠ q1 ∧
      queryNin h2 q1 = some [PyVal.str "a", PyVal.str "b"] :=
  ⟨_, _, _, _, rfl, rfl, rfl, by decide, rfl⟩

/-- Witness for C10 with the list `["created_at", "text"]` passed to a
filter call on an empty store. -/
theorem filter_mutates_caller_order_by_witness :
    ("created_at" ∈ ["created_at", "text"]) ∧
    ((mongoFilter [] [] [] (some ["created_at", "text"])).2 =
      some ((["created_at", "text"] : List String).erase "created_at") ∧
    ((["created_at", "text"] : List String).erase "created_at").length + 1 =
      (["created_at", "text"] : List String).length ∧
    ((["created_at", "text"] : List String).count "created_at" = 1 →
      "created_at" ∉
        (["created_at", "text"] : List String).erase "created_at" ∧
      buildOrdering
          ((["created_at", "text"] : List String).erase "created_at") =
        (((["created_at", "text"] : List String).erase "created_at").map
          fun f => (f, SortDir.asc),
          (["created_at", "text"] : List String).erase "created_at"))) :=
  ⟨by decide,
    filter_mutates_caller_order_by [] [] [] ["created_at", "text"]
      (by decide)⟩
